import Mathlib

set_option maxRecDepth 4000

/-!
Verification of the preflight environment-check script `build/npm/preinstall.js`.

The script is a single-pass sequential checker: it validates the node.js
version, the yarn version, the invoking executable, and on Windows discovers a
Visual Studio toolchain, tries to enable Spectre-mitigated libraries, and
installs native headers.  Every function below is a shallow embedding of the
corresponding JavaScript function; external state (environment variables, the
filesystem, spawned processes) is modelled by an explicit `World` record, and
JavaScript exceptions (`path.join` on a non-string, `fs.readFileSync` on a
missing file, `cp.execFileSync` on a failing process) are modelled by an
explicit `JsError` value.
-/


/-- Exceptions the script can raise at runtime.  `typeError` models the
`TypeError` thrown by Node's `path.join` when given a non-string argument;
`enoent` models the error thrown by `fs.readFileSync` on a missing file;
`execFailed` models the error thrown by `cp.execFileSync` when the spawned
process fails or exits with a nonzero status. -/

inductive JsError where
  | typeError : JsError
  | enoent : String → JsError
  | execFailed : String → List String → JsError
  deriving Repr, DecidableEq

/-- The ambient state the script consults: environment variables
(`process.env`, where `none` is an unset variable), `fs.existsSync`,
`fs.readFileSync` (where `none` means the file is missing and the read
throws), `cp.spawnSync` results (`.error` presence and `.status`, where
`none` models a `null` status), and `cp.execFileSync` (whether the call
succeeds, and its stdout when it does). -/

structure World where
  env : String → Option String
  pathExists : String → Bool
  fileContents : String → Option String
  spawnHasError : String → List String → Bool
  spawnStatus : String → List String → Option Int
  execOk : String → List String → Bool
  execOutput : String → List String → String

/-! ## Version parsing

Both version gates run `/^(\d+)\.(\d+)\.(\d+)/.exec(...)` and `parseInt` the
three captured digit groups.  The anchored regex takes a maximal digit run,
a literal dot, a maximal digit run, a literal dot, and a maximal digit run,
ignoring any remainder of the string. -/

/-- Numeric value of a digit list, as `parseInt` computes it on a capture
consisting of decimal digits. -/

def natOfDigits (ds : List Char) : Nat :=
  ds.foldl (fun acc c => acc * 10 + (c.toNat - 48)) 0

/-- Shallow embedding of `/^(\d+)\.(\d+)\.(\d+)/.exec(s)` followed by
`parseInt` of the three captures: returns the parsed
(major, minor, patch) triple, or `none` when the regex does not match. -/

def parseVerTriple (s : String) : Option (Nat × Nat × Nat) :=
  let l := s.data
  let d1 := l.takeWhile Char.isDigit
  let r1 := l.dropWhile Char.isDigit
  if d1.isEmpty then none else
  match r1 with
  | '.' :: r2 =>
    let d2 := r2.takeWhile Char.isDigit
    let r3 := r2.dropWhile Char.isDigit
    if d2.isEmpty then none else
    match r3 with
    | '.' :: r4 =>
      let d3 := r4.takeWhile Char.isDigit
      if d3.isEmpty then none
      else some (natOfDigits d1, natOfDigits d2, natOfDigits d3)
    | _ => none
  | _ => none

/-! ## The node.js version gate (preinstall.js lines 7-18) -/

/-- The error condition of the node gate:
`majorNodeVersion < 16 || (majorNodeVersion === 16 && minorNodeVersion < 14)`. -/

def nodeGateErr (major minor : Nat) : Bool :=
  decide (major < 16) || (decide (major = 16) && decide (minor < 14))

/-- The warning condition of the node gate: `majorNodeVersion >= 17`. -/

def nodeGateWarn (major : Nat) : Bool :=
  decide (17 ≤ major)

/-- The node version gate applied to the interpreter's version string:
returns `(error flag contribution, warning emitted)`, or `none` when the
version string does not match the parsing regex (in which case the script
would crash dereferencing a `null` match). -/

def nodeVersionCheck (s : String) : Option (Bool × Bool) :=
  (parseVerTriple s).map (fun v => (nodeGateErr v.1 v.2.1, nodeGateWarn v.1))

/-! ## The yarn version gate (preinstall.js lines 23-38) -/

/-- The error condition of the yarn gate, exactly as written in the source:
`major < 1 || (major === 1 && (minor < 10 || (minor === 10 && patch < 1))) || major >= 2`. -/

def yarnGateErr (major minor patch : Nat) : Bool :=
  decide (major < 1) ||
    (decide (major = 1) &&
      (decide (minor < 10) || (decide (minor = 10) && decide (patch < 1)))) ||
    decide (2 ≤ major)

/-- The yarn version gate applied to yarn's self-reported version string:
returns the error flag contribution, or `none` when parsing fails. -/

def yarnVersionCheck (s : String) : Option Bool :=
  (parseVerTriple s).map (fun v => yarnGateErr v.1 v.2.1 v.2.2)

/-- Strict lexicographic order on version triples (spec-side notion used to
state the accepted interval). -/

def verLtB (a b : Nat × Nat × Nat) : Bool :=
  decide (a.1 < b.1) ||
    (decide (a.1 = b.1) &&
      (decide (a.2.1 < b.2.1) ||
        (decide (a.2.1 = b.2.1) && decide (a.2.2 < b.2.2))))

/-- Reflexive lexicographic order on version triples. -/

def verLeB (a b : Nat × Nat × Nat) : Bool :=
  verLtB a b || decide (a = b)

/-! ## The invoker identity check (preinstall.js lines 40-43)

The check tests `process.env['npm_execpath']` against the regex
`/yarn[\w-.]*\.c?js$|yarnpkg$/` and sets the error flag when it fails.  The
matcher below is an operational backtracking rendering of that regex:
`matchSuffixJs` matches `[\w-.]*\.c?js` against an entire remaining input
(the pattern is anchored on the right by `$`), `matchYarnBranchAt` matches
the first alternative starting at the current position, and `execpathTest`
scans every start position, which is exactly an unanchored regex test. -/

/-- Membership in the regex character class `[\w-.]`: ASCII word characters
plus dash and dot. -/

def wordDashDot (c : Char) : Bool :=
  c.isAlphanum || c == '_' || c == '-' || c == '.'

/-- Matches `[\w-.]*\.c?js` against the whole of `l`: either the star takes
nothing and `\.c?js` consumes everything, or the head is in the class and
the rest matches. -/

def matchSuffixJs : List Char → Bool
  | [] => false
  | c :: rest =>
    (c == '.' && (rest == ['j', 's'] || rest == ['c', 'j', 's'])) ||
      (wordDashDot c && matchSuffixJs rest)

/-- Matches the alternative `yarn[\w-.]*\.c?js$` starting at the head of
`l` and running to the end of the input. -/

def matchYarnBranchAt (l : List Char) : Bool :=
  "yarn".data.isPrefixOf l && matchSuffixJs (l.drop 4)

/-- Unanchored test of `/yarn[\w-.]*\.c?js$|yarnpkg$/`: try every start
position. -/

def execpathTest : List Char → Bool
  | [] => false
  | c :: rest =>
    matchYarnBranchAt (c :: rest) || ((c :: rest) == "yarnpkg".data) ||
      execpathTest rest

/-- String coercion performed by `RegExp.prototype.test` on its argument:
an unset environment variable (`undefined`) coerces to the string
"undefined". -/

def jsToString : Option String → String
  | none => "undefined"
  | some s => s

/-- The invoker identity check: `true` means the error flag is set (the
regex did not match `process.env['npm_execpath']`). -/

def invokerCheckErr (execpath : Option String) : Bool :=
  !(execpathTest (jsToString execpath).data)

/-! ## Windows toolchain discovery (preinstall.js lines 74-109)

`findSupportedVisualStudioVersion` walks versions 2022, 2019, 2017 in that
order; for each it returns the `vs<version>_install` environment override if
that is truthy and the path exists, and otherwise probes the `ProgramFiles`
root followed by the `ProgramFiles(x86)` root via
`findAvailableVSPathForVersion`, which tries the five editions in order.

`path.join` is modelled as joining with a separator; Node's win32 variant
additionally normalizes separators, which is immaterial here because file
existence is an abstract predicate `World.pathExists` on the joined path. -/

/-- Model of `path.join` on two string arguments. -/

def joinPath (a b : String) : String := a ++ "/" ++ b

/-- JS truthiness of an environment variable value: unset (`undefined`) and
the empty string are falsy. -/

def envTruthy : Option String → Bool
  | none => false
  | some s => !(s == "")

/-- The edition preference list of `findAvailableVSPathForVersion`. -/

def vsEditions : List String :=
  ["Enterprise", "Professional", "Community", "Preview", "BuildTools"]

/-- The edition loop of `findAvailableVSPathForVersion`: return the first
`path.join(vsPath, vsType)` that exists. -/

def firstExistingEdition (w : World) (vsPath : String) : List String → Option String
  | [] => none
  | t :: rest =>
    if w.pathExists (joinPath vsPath t) then some (joinPath vsPath t)
    else firstExistingEdition w vsPath rest

/-- `findAvailableVSPathForVersion(programFilesPath, version)` (lines
74-87): `null` for a falsy root, else the first existing edition directory
under `<root>/Microsoft Visual Studio/<version>`. -/

def findAvailableVSPathForVersion (w : World) (programFilesPath : Option String)
    (version : String) : Option String :=
  match programFilesPath with
  | none => none
  | some pf =>
    if pf == "" then none
    else firstExistingEdition w (pf ++ "/Microsoft Visual Studio/" ++ version) vsEditions

/-- The inner root loop of `findSupportedVisualStudioVersion`: probe the
64-bit `ProgramFiles` root, then the 32-bit `ProgramFiles(x86)` root. -/

def probeRootsForVersion (w : World) (version : String) : Option String :=
  match findAvailableVSPathForVersion w (w.env "ProgramFiles") version with
  | some p => some p
  | none => findAvailableVSPathForVersion w (w.env "ProgramFiles(x86)") version

/-- The version loop of `findSupportedVisualStudioVersion` (lines 89-109):
for each version, return the truthy-and-existing environment override, else
the first existing probe, else continue with the remaining versions. -/

def findVSLoop (w : World) : List String → Option String
  | [] => none
  | version :: rest =>
    match w.env ("vs" ++ version ++ "_install") with
    | some p =>
      if (!(p == "")) && w.pathExists p then some p
      else
        match probeRootsForVersion w version with
        | some q => some q
        | none => findVSLoop w rest
    | none =>
      match probeRootsForVersion w version with
      | some q => some q
      | none => findVSLoop w rest

/-- `findSupportedVisualStudioVersion()`: the version loop over the
descending preference list. -/

def findSupportedVisualStudioVersion (w : World) : Option String :=
  findVSLoop w ["2022", "2019", "2017"]

/-- Spec-side candidate list for one root and one version: the five edition
directories in preference order. -/

def vsCandidates (pf : String) (version : String) : List String :=
  vsEditions.map (fun t => joinPath (pf ++ "/Microsoft Visual Studio/" ++ version) t)

/-- A world whose filesystem is the abstract predicate `ex` and whose
environment is `env`; the remaining fields are irrelevant to discovery. -/

def mkProbeWorld (env : String → Option String) (ex : String → Bool) : World :=
  ⟨env, ex, fun _ => none, fun _ _ => false, fun _ _ => none, fun _ _ => true,
    fun _ _ => ""⟩

/-- The standard Windows environment for discovery: both Program Files
roots set, no `vs<version>_install` overrides. -/

def stdVSEnv (s : String) : Option String :=
  if s == "ProgramFiles" then some "C:/Program Files"
  else if s == "ProgramFiles(x86)" then some "C:/Program Files (x86)"
  else none

/-- Candidates probed for one version under the standard environment:
64-bit root first, then the 32-bit root. -/

def stdPairCandidates (v : String) : List String :=
  vsCandidates "C:/Program Files" v ++ vsCandidates "C:/Program Files (x86)" v

/-- The full ordered candidate list claimed by the spec, under the standard
environment: versions 2022, 2019, 2017, each probing both roots with the
five editions in order. -/

def stdVSCandidates : List String :=
  stdPairCandidates "2022" ++ (stdPairCandidates "2019" ++ stdPairCandidates "2017")

/-- Filesystem for the scenario in which both a 2022 Enterprise and a 2019
Community installation exist. -/

def exScenarioA (s : String) : Bool :=
  s == "C:/Program Files/Microsoft Visual Studio/2022/Enterprise" ||
    s == "C:/Program Files/Microsoft Visual Studio/2019/Community"

/-- Environment with a `vs2022_install` override on top of the standard
roots. -/

def envOverride (s : String) : Option String :=
  if s == "vs2022_install" then some "D:/VS2022" else stdVSEnv s

/-- Filesystem in which the override path and a 2019 Community installation
exist. -/

def exScenarioB (s : String) : Bool :=
  s == "D:/VS2022" || s == "C:/Program Files/Microsoft Visual Studio/2019/Community"

/-! ## Spectre mitigation enablement (preinstall.js lines 62-72) -/

/-- `path.join` where the first argument may be `null`
(`findSupportedVisualStudioVersion` can return `null`): Node's `path.join`
throws a `TypeError` when an argument is not a string. -/

def joinPathChecked : Option String → String → Except JsError String
  | none, _ => Except.error JsError.typeError
  | some a, b => Except.ok (joinPath a b)

/-- Log line for a missing `vcvarsall.bat`. -/

def msgVcvarsMissing : String := "*** vcvarsall.bat not found."

/-- Log line for a nonzero `vcvarsall.bat` status. -/

def msgVcvarsStatus : String := "vcvarsall.bat returned status "

/-- `enableSpectreMode(vsPath)`: joins the setup-script path (throwing on a
`null` toolchain path), reports a missing script, else invokes it and logs a
truthy (nonzero) status.  The accumulated error flag `err` is threaded
through so the frame property can be stated; the source function never
assigns it. -/

def enableSpectreMode (w : World) (vsPath : Option String) (err : Bool) :
    Except JsError (Bool × List String) :=
  match joinPathChecked vsPath "VC/Auxiliary/Build/vcvarsall.bat" with
  | Except.error e => Except.error e
  | Except.ok auxPath =>
    if !(w.pathExists auxPath) then Except.ok (err, [msgVcvarsMissing])
    else
      match w.spawnStatus auxPath ["-vcvars_spectre_libs=spectre_mode"] with
      | some n => if n != 0 then Except.ok (err, [msgVcvarsStatus]) else Except.ok (err, [])
      | none => Except.ok (err, [])

/-! ## Header config parsing: `getHeaderInfo` (preinstall.js lines 149-165)

The file contents are split with `split(/\r\n?/g)` — the separator is CRLF
or a lone CR; a lone LF is *not* a separator.  Each resulting line is then
matched against `/\s*disturl\s*\"(.*)\"\s*$/` and
`/\s*target\s*\"(.*)\"\s*$/` (unanchored `String.match`, last matching line
wins).  The matcher below renders the leftmost-match, greedy-capture
semantics of those regexes: `scanKey` tries every start position for the
key; after the key, the first non-whitespace character must be `"`;
`findCloseAux` then captures greedily up to the last `"` that is followed
only by whitespace, the capture being forbidden to contain a line
terminator (JS `.` matches neither `\n` nor `\r`). -/

/-- JS `\s` membership, for the ASCII range relevant here. -/

def isJsWs (c : Char) : Bool :=
  c == ' ' || c == '\t' || c == '\n' || c == '\r' || c == '\x0b' || c == '\x0c'

/-- JS `.`: any character except a line terminator. -/

def isDotChar (c : Char) : Bool := !(c == '\n' || c == '\r')

/-- `split(/\r\n?/g)`: split on CRLF, or on a lone CR.  A lone LF does not
separate. -/

def splitRN : List Char → List (List Char)
  | [] => [[]]
  | '\r' :: '\n' :: rest => [] :: splitRN rest
  | '\r' :: rest => [] :: splitRN rest
  | c :: rest =>
    match splitRN rest with
    | [] => [[c]]
    | l :: ls => (c :: l) :: ls

/-- Greedy match of `(.*)"\s*$` against all of `l`: the longest capture of
non-terminator characters followed by `"` and then only whitespace. -/

def findCloseAux : List Char → Option (List Char)
  | [] => none
  | c :: rest =>
    match findCloseAux rest with
    | some cap => if isDotChar c then some (c :: cap) else none
    | none => if c == '"' && rest.all isJsWs then some [] else none

/-- Match of `\s*"(.*)"\s*$` against all of `l` (the part of the key regex
after the key): the first non-whitespace character must open the quote. -/

def matchAfterKey (l : List Char) : Option (List Char) :=
  match l.dropWhile isJsWs with
  | '"' :: rest => findCloseAux rest
  | _ => none

/-- Leftmost unanchored match of `\s*<key>\s*"(.*)"\s*$` in `l`, returning
the capture.  The engine tries each start position; the leading `\s*` never
changes matchability or the capture because the key starts with a
non-whitespace character. -/

def scanKey (key : List Char) : List Char → Option (List Char)
  | [] => none
  | c :: rest =>
    if key.isPrefixOf (c :: rest) then
      match matchAfterKey ((c :: rest).drop key.length) with
      | some cap => some cap
      | none => scanKey key rest
    else scanKey key rest

/-- The per-line update of `getHeaderInfo`'s loop: each of `disturl` and
`target` is reassigned when its regex matches the line, and kept
otherwise. -/

def headerScanStep (acc : Option (List Char) × Option (List Char)) (line : List Char) :
    Option (List Char) × Option (List Char) :=
  (match scanKey "disturl".data line with
   | some v => some v
   | none => acc.1,
   match scanKey "target".data line with
   | some v => some v
   | none => acc.2)

/-- `getHeaderInfo(rcFile)` applied to the file's contents: split on
`/\r\n?/`, scan every line for the two keys (a later matching line
overwrites an earlier one), and return the pair only when both were
found. -/

def getHeaderInfo (content : String) : Option (String × String) :=
  match (splitRN content.data).foldl headerScanStep (none, none) with
  | (some d, some t) => some (String.mk d, String.mk t)
  | _ => none

/-! ## The native header installer: `installHeaders` (lines 111-143) -/

/-- Outcome of a run fragment: the accumulated error flag, the header
`install` invocations that occurred (dist-url, target), and the uncaught
exception that aborted the fragment, if any. -/

structure RunOut where
  err : Bool
  installs : List (String × String)
  exn : Option JsError
  deriving Repr, DecidableEq

/-- Path of the node-gyp executable used by `installHeaders`
(`path.join(__dirname, 'gyp', 'node_modules', '.bin', 'node-gyp.cmd')`,
written relative to the repository root). -/

def nodeGypPath : String := "build/npm/gyp/node_modules/.bin/node-gyp.cmd"

/-- Path of the local header config
(`path.join(__dirname, '..', '..', '.yarnrc')`: the repository root). -/

def localRcPath : String := ".yarnrc"

/-- Path of the remote header config
(`path.join(__dirname, '..', '..', 'remote', '.yarnrc')`). -/

def remoteRcPath : String := "remote/.yarnrc"

/-- `split(/\n/g)`: split on every LF. -/

def splitNl : List Char → List (List Char)
  | [] => [[]]
  | '\n' :: rest => [] :: splitNl rest
  | c :: rest =>
    match splitNl rest with
    | [] => [[c]]
    | l :: ls => (c :: l) :: ls

/-- `line.startsWith('gyp info')`. -/

def startsWithGypInfo (line : List Char) : Bool :=
  "gyp info".data.isPrefixOf line

/-- Parse the node-gyp `list` output: split on newlines and drop the tool's
own `gyp info` log lines (the source wraps this in a `Set`, used only for
membership tests). -/

def gypListVersions (out : String) : List String :=
  ((splitNl out.data).filter (fun line => !(startsWithGypInfo line))).map String.mk

/-- The remote half of `installHeaders`: runs after the local half did not
throw; `acc` holds the install invocations made so far. -/

def remoteInstallPhase (w : World) (e0 : Bool) (remoteSpec : Option (String × String))
    (versions : List String) (acc : List (String × String)) : RunOut :=
  match remoteSpec with
  | some (u, t) =>
    if !(versions.contains t) then
      if w.execOk nodeGypPath ["install", "--dist-url", u, t] then
        ⟨e0, acc ++ [(u, t)], none⟩
      else
        ⟨e0, acc ++ [(u, t)], some (JsError.execFailed nodeGypPath ["install", "--dist-url", u, t])⟩
    else ⟨e0, acc, none⟩
  | none => ⟨e0, acc, none⟩

/-- `installHeaders()`: install node-gyp with yarn (failure sets the error
flag and returns), list installed header versions (`execFileSync`, which
throws on failure), read both header configs (`readFileSync` throws if a
file is absent), then for each parsed spec whose target is not yet
installed invoke `node-gyp install --dist-url <disturl> <target>`
(`execFileSync` again, so a failing local install aborts before the remote
one). -/

def installHeaders (w : World) (e0 : Bool) : RunOut :=
  if w.spawnHasError "yarn.cmd" ["install"] ||
      !(w.spawnStatus "yarn.cmd" ["install"] == some 0) then
    ⟨true, [], none⟩
  else if !(w.execOk nodeGypPath ["list"]) then
    ⟨e0, [], some (JsError.execFailed nodeGypPath ["list"])⟩
  else
    let versions := gypListVersions (w.execOutput nodeGypPath ["list"])
    match w.fileContents localRcPath with
    | none => ⟨e0, [], some (JsError.enoent localRcPath)⟩
    | some lc =>
      match w.fileContents remoteRcPath with
      | none => ⟨e0, [], some (JsError.enoent remoteRcPath)⟩
      | some rc =>
        match getHeaderInfo lc with
        | some (u, t) =>
          if !(versions.contains t) then
            if w.execOk nodeGypPath ["install", "--dist-url", u, t] then
              remoteInstallPhase w e0 (getHeaderInfo rc) versions [(u, t)]
            else
              ⟨e0, [(u, t)],
                some (JsError.execFailed nodeGypPath ["install", "--dist-url", u, t])⟩
          else remoteInstallPhase w e0 (getHeaderInfo rc) versions []
        | none => remoteInstallPhase w e0 (getHeaderInfo rc) versions []

/-! ## The top-level Windows branch (preinstall.js lines 45-60) -/

/-- The Windows branch: discover the toolchain, set the error flag if none
was found, call `enableSpectreMode(vsPath)` (which throws a `TypeError` via
`path.join` when `vsPath` is `null`), and run `installHeaders()` only when
no error was recorded. -/

def windowsBranch (w : World) (e0 : Bool) : RunOut :=
  let vsPath := findSupportedVisualStudioVersion w
  let e1 := if vsPath.isNone then true else e0
  match enableSpectreMode w vsPath e1 with
  | Except.error ex => ⟨e1, [], some ex⟩
  | Except.ok (e2, _) => if e2 then ⟨e2, [], none⟩ else installHeaders w e2

/-- How the process ends: a clean `process.exit` (status 1 when the error
flag accumulated, otherwise falling off the script with status 0), or a
crash from an uncaught exception. -/

inductive Outcome where
  | exited : Nat → Outcome
  | crashed : JsError → Outcome
  deriving Repr, DecidableEq

/-- The observable end of the run on Windows, from the Windows branch and
the final `if (err) process.exit(1)`. -/

def windowsRunOutcome (w : World) (e0 : Bool) : Outcome :=
  match windowsBranch w e0 with
  | ⟨_, _, some ex⟩ => Outcome.crashed ex
  | ⟨e, _, none⟩ => Outcome.exited (if e then 1 else 0)

/-- A Windows world with no toolchain: no environment variables at all and
an empty filesystem. -/

def worldNoVS : World :=
  ⟨fun _ => none, fun _ => false, fun _ => none, fun _ _ => false,
    fun _ _ => none, fun _ _ => true, fun _ _ => ""⟩

/-! ## Header installer theorems (C3, C8) -/

/-- Spec-side description of the installs due for one header spec: nothing
when the spec is absent or its target is already installed, and exactly the
one invocation with that spec's dist-url and target otherwise. -/

def specInstalls (spec : Option (String × String)) (versions : List String) :
    List (String × String) :=
  match spec with
  | some (u, t) => if versions.contains t then [] else [(u, t)]
  | none => []

/-- A world in which every external invocation succeeds, the node-gyp list
output is empty, and both config files parse to a full header spec. -/

def worldBothSpecs : World :=
  ⟨fun _ => none, fun _ => true,
    fun p =>
      if p == localRcPath then
        some "disturl \"https://local/dist\"\r\ntarget \"1.0.0\"\r\n"
      else if p == remoteRcPath then
        some "disturl \"https://remote/dist\"\r\ntarget \"2.0.0\"\r\n"
      else none,
    fun _ _ => false, fun _ _ => some 0, fun _ _ => true, fun _ _ => ""⟩

/-- Like `worldBothSpecs`, except that the local header install invocation
fails, so `execFileSync` throws. -/

def worldLocalInstallThrows : World :=
  ⟨fun _ => none, fun _ => true,
    fun p =>
      if p == localRcPath then
        some "disturl \"https://local/dist\"\r\ntarget \"1.0.0\"\r\n"
      else if p == remoteRcPath then
        some "disturl \"https://remote/dist\"\r\ntarget \"2.0.0\"\r\n"
      else none,
    fun _ _ => false, fun _ _ => some 0,
    fun _ args => !(args == ["install", "--dist-url", "https://local/dist", "1.0.0"]),
    fun _ _ => ""⟩

/-- A world in which every invocation succeeds but the local config file is
absent (`fileContents` is `none` everywhere). -/

def worldAbsentLocalRc : World :=
  ⟨fun _ => none, fun _ => true, fun _ => none, fun _ _ => false,
    fun _ _ => some 0, fun _ _ => true, fun _ _ => ""⟩

/-! ## Header parsing theorems (C2) -/

/-- A character that may appear inside a quoted value in the constructed
config files of the parsing theorem: not a quote and not a line
terminator. -/

def goodCapChar (c : Char) : Bool :=
  !(c == '"') && !(c == '\n') && !(c == '\r')

/-- Trailing-padding characters tolerated after a quoted value: blank or
tab (whitespace that is not a line separator). -/

def goodPadChar (c : Char) : Bool := c == ' ' || c == '\t'

/-! ## Theorems -/

/-- C4: for every runtime version string parsing as major.minor.patch, the
node gate sets the error flag exactly when major < 16 or (major = 16 and
minor < 14), and emits the warning exactly when major ≥ 17; in particular
16.14.0 passes without warning, 16.13.0 fails, and 17.0.0 passes with a
warning. -/

theorem c4_node_version_gate :
    (∀ s M m p, parseVerTriple s = some (M, m, p) →
      nodeVersionCheck s = some (decide (M < 16 ∨ (M = 16 ∧ m < 14)), decide (17 ≤ M)))
    ∧ nodeVersionCheck "16.14.0" = some (false, false)
    ∧ nodeVersionCheck "16.13.0" = some (true, false)
    ∧ nodeVersionCheck "17.0.0" = some (false, true) := by
  refine ⟨?_, by decide, by decide, by decide⟩
  intro s M m p h
  simp only [nodeVersionCheck, h, Option.map_some', Option.some.injEq, Prod.mk.injEq]
  constructor
  · unfold nodeGateErr
    rw [Bool.decide_or, Bool.decide_and]
  · rfl

/-- C4 witness: the node gate theorem instantiated at the concrete version
string "16.13.2". -/

theorem c4_node_version_gate_witness :
    nodeVersionCheck "16.13.2" =
      some (decide ((16 : Nat) < 16 ∨ ((16 : Nat) = 16 ∧ (13 : Nat) < 14)),
        decide ((17 : Nat) ≤ 16)) :=
  c4_node_version_gate.1 "16.13.2" 16 13 2 (by decide)

/-- C5: for every package-manager version string parsing as
major.minor.patch, the yarn gate accepts (does not set the error flag)
exactly when the triple lies in the half-open interval [1.10.1, 2.0.0); in
particular 1.10.0 is rejected, 1.10.1 accepted, 1.99.9 accepted, 2.0.0
rejected. -/

theorem c5_yarn_version_gate :
    (∀ s M m p, parseVerTriple s = some (M, m, p) →
      yarnVersionCheck s =
        some (!(verLeB (1, 10, 1) (M, m, p) && verLtB (M, m, p) (2, 0, 0))))
    ∧ yarnVersionCheck "1.10.0" = some true
    ∧ yarnVersionCheck "1.10.1" = some false
    ∧ yarnVersionCheck "1.99.9" = some false
    ∧ yarnVersionCheck "2.0.0" = some true := by
  refine ⟨?_, by decide, by decide, by decide, by decide⟩
  intro s M m p h
  simp only [yarnVersionCheck, h, Option.map_some', Option.some.injEq]
  rw [Bool.eq_iff_iff]
  simp only [yarnGateErr, verLeB, verLtB, Bool.or_eq_true, Bool.and_eq_true,
    Bool.not_eq_true', Bool.or_eq_false_iff, Bool.and_eq_false_iff,
    decide_eq_true_eq, decide_eq_false_iff_not, Prod.mk.injEq]
  omega

/-- C5 witness: the yarn gate theorem instantiated at the concrete version
string "1.22.19". -/

theorem c5_yarn_version_gate_witness :
    yarnVersionCheck "1.22.19" =
      some (!(verLeB (1, 10, 1) (1, 22, 19) && verLtB (1, 22, 19) (2, 0, 0))) :=
  c5_yarn_version_gate.1 "1.22.19" 1 22 19 (by decide)

theorem matchSuffixJs_iff (b : List Char) :
    matchSuffixJs b = true ↔
      (b.all wordDashDot = true ∧
        (['.', 'j', 's'] <:+ b ∨ ['.', 'c', 'j', 's'] <:+ b)) := by
  induction b with
  | nil =>
    simp only [matchSuffixJs, List.all_nil, true_and]
    constructor
    · intro h; cases h
    · rintro (h | h) <;> exact absurd (List.eq_nil_of_suffix_nil h) (by decide)
  | cons c rest ih =>
    simp only [matchSuffixJs, Bool.or_eq_true, Bool.and_eq_true, beq_iff_eq,
      List.all_cons, ih]
    constructor
    · rintro (⟨hc, (hr | hr)⟩ | ⟨hc, hall, hsuf⟩)
      · subst hc; subst hr
        exact ⟨⟨by decide, by decide⟩, Or.inl (List.suffix_refl _)⟩
      · subst hc; subst hr
        exact ⟨⟨by decide, by decide⟩, Or.inr (List.suffix_refl _)⟩
      · refine ⟨⟨hc, hall⟩, ?_⟩
        rcases hsuf with hs | hs
        · exact Or.inl (hs.trans (List.suffix_cons c rest))
        · exact Or.inr (hs.trans (List.suffix_cons c rest))
    · rintro ⟨⟨hc, hall⟩, (hs | hs)⟩
      · rcases List.suffix_cons_iff.mp hs with he | hs'
        · cases he; exact Or.inl ⟨rfl, Or.inl rfl⟩
        · exact Or.inr ⟨hc, hall, Or.inl hs'⟩
      · rcases List.suffix_cons_iff.mp hs with he | hs'
        · cases he; exact Or.inl ⟨rfl, Or.inr rfl⟩
        · exact Or.inr ⟨hc, hall, Or.inr hs'⟩

theorem matchYarnBranchAt_iff (l : List Char) :
    matchYarnBranchAt l = true ↔
      ∃ b, l = 'y' :: 'a' :: 'r' :: 'n' :: b ∧ matchSuffixJs b = true := by
  unfold matchYarnBranchAt
  rw [Bool.and_eq_true, List.isPrefixOf_iff_prefix]
  constructor
  · rintro ⟨⟨b, hb⟩, hm⟩
    refine ⟨b, ?_, ?_⟩
    · rw [← hb]; rfl
    · rw [← hb] at hm
      have hd : List.drop 4 ("yarn".data ++ b) = b := List.drop_left "yarn".data b
      rwa [hd] at hm
  · rintro ⟨b, hl, hm⟩
    subst hl
    exact ⟨⟨b, rfl⟩, hm⟩

theorem execpathTest_iff (l : List Char) :
    execpathTest l = true ↔
      ((∃ a b, l = a ++ ('y' :: 'a' :: 'r' :: 'n' :: b) ∧ matchSuffixJs b = true) ∨
        "yarnpkg".data <:+ l) := by
  induction l with
  | nil =>
    simp only [execpathTest]
    constructor
    · intro h; cases h
    · rintro (⟨a, b, hab, _⟩ | hs)
      · exact absurd hab.symm (List.append_ne_nil_of_right_ne_nil a (by simp))
      · exact absurd (List.eq_nil_of_suffix_nil hs) (by decide)
  | cons c rest ih =>
    simp only [execpathTest, Bool.or_eq_true, beq_iff_eq, ih]
    constructor
    · rintro ((hm | he) | (⟨a, b, hab, hm⟩ | hs))
      · rcases (matchYarnBranchAt_iff _).mp hm with ⟨b, hl, hm'⟩
        exact Or.inl ⟨[], b, by simpa using hl, hm'⟩
      · rw [he]
        exact Or.inr (List.suffix_refl _)
      · exact Or.inl ⟨c :: a, b, by rw [hab]; rfl, hm⟩
      · exact Or.inr (hs.trans (List.suffix_cons c rest))
    · rintro (⟨a, b, hab, hm⟩ | hs)
      · cases a with
        | nil =>
          refine Or.inl (Or.inl ?_)
          rw [(matchYarnBranchAt_iff _)]
          exact ⟨b, by simpa using hab, hm⟩
        | cons c' a' =>
          have : rest = a' ++ ('y' :: 'a' :: 'r' :: 'n' :: b) := by
            have := hab
            simp only [List.cons_append] at this
            exact (List.cons.injEq _ _ _ _ ▸ this).2
          exact Or.inr (Or.inl ⟨a', b, this, hm⟩)
      · rcases List.suffix_cons_iff.mp hs with he | hs'
        · exact Or.inl (Or.inr he.symm)
        · exact Or.inr (Or.inr hs')

/-- C6: the invoker check passes exactly when the invoker path ends in a
yarn script name (`yarn`, then characters from `[\w-.]`, ending in `.js` or
`.cjs`) or ends in `yarnpkg`; in particular `.../yarn.js`,
`.../yarn-1.2.3.cjs` and `.../yarnpkg` are accepted while `.../npm-cli.js`
sets the error flag. -/

theorem c6_invoker_check :
    (∀ l : List Char, execpathTest l = true ↔
      ((∃ a b, l = a ++ ('y' :: 'a' :: 'r' :: 'n' :: b) ∧
          b.all wordDashDot = true ∧
          (['.', 'j', 's'] <:+ b ∨ ['.', 'c', 'j', 's'] <:+ b)) ∨
        "yarnpkg".data <:+ l))
    ∧ invokerCheckErr (some "/usr/local/bin/yarn.js") = false
    ∧ invokerCheckErr (some "/opt/yarn-1.2.3.cjs") = false
    ∧ invokerCheckErr (some "/usr/bin/yarnpkg") = false
    ∧ invokerCheckErr (some "/usr/lib/node_modules/npm/bin/npm-cli.js") = true := by
  refine ⟨?_, by decide, by decide, by decide, by decide⟩
  intro l
  rw [execpathTest_iff]
  constructor
  · rintro (⟨a, b, hab, hm⟩ | hs)
    · exact Or.inl ⟨a, b, hab, (matchSuffixJs_iff b).mp hm⟩
    · exact Or.inr hs
  · rintro (⟨a, b, hab, hall, hsuf⟩ | hs)
    · exact Or.inl ⟨a, b, hab, (matchSuffixJs_iff b).mpr ⟨hall, hsuf⟩⟩
    · exact Or.inr hs

/-- C10: when the `npm_execpath` environment variable is entirely unset, the
invoker identity check fails and sets the error flag (the regex is tested
against the coerced string "undefined", which it does not match). -/

theorem c10_unset_execpath_fails : invokerCheckErr none = true := by decide

theorem firstExistingEdition_eq (w : World) (v : String) (l : List String) :
    firstExistingEdition w v l = (l.map (joinPath v)).find? w.pathExists := by
  induction l with
  | nil => rfl
  | cons t rest ih =>
    simp only [firstExistingEdition, List.map_cons, List.find?_cons]
    cases h : w.pathExists (joinPath v t) <;> simp [h, ih]

theorem findAvailable_eq (w : World) (pf : String) (v : String)
    (h : (pf == "") = false) :
    findAvailableVSPathForVersion w (some pf) v = (vsCandidates pf v).find? w.pathExists := by
  simp only [findAvailableVSPathForVersion, h, Bool.false_eq_true, if_false]
  exact firstExistingEdition_eq w _ vsEditions

theorem probeRoots_std (ex : String → Bool) (v : String) :
    probeRootsForVersion (mkProbeWorld stdVSEnv ex) v =
      (stdPairCandidates v).find? ex := by
  have h64 : (mkProbeWorld stdVSEnv ex).env "ProgramFiles" = some "C:/Program Files" := rfl
  have h86 : (mkProbeWorld stdVSEnv ex).env "ProgramFiles(x86)" =
      some "C:/Program Files (x86)" := rfl
  have hA : findAvailableVSPathForVersion (mkProbeWorld stdVSEnv ex)
      (some "C:/Program Files") v = (vsCandidates "C:/Program Files" v).find? ex := by
    rw [findAvailable_eq _ _ _ (by decide)]; rfl
  have hB : findAvailableVSPathForVersion (mkProbeWorld stdVSEnv ex)
      (some "C:/Program Files (x86)") v =
        (vsCandidates "C:/Program Files (x86)" v).find? ex := by
    rw [findAvailable_eq _ _ _ (by decide)]; rfl
  simp only [probeRootsForVersion, h64, h86, hA, hB, stdPairCandidates,
    List.find?_append]
  cases h : (vsCandidates "C:/Program Files" v).find? ex <;> rfl

theorem findVS_std (ex : String → Bool) :
    findSupportedVisualStudioVersion (mkProbeWorld stdVSEnv ex) =
      stdVSCandidates.find? ex := by
  have h22 : (mkProbeWorld stdVSEnv ex).env ("vs" ++ "2022" ++ "_install") = none := rfl
  have h19 : (mkProbeWorld stdVSEnv ex).env ("vs" ++ "2019" ++ "_install") = none := rfl
  have h17 : (mkProbeWorld stdVSEnv ex).env ("vs" ++ "2017" ++ "_install") = none := rfl
  simp only [findSupportedVisualStudioVersion, findVSLoop, h22, h19, h17,
    probeRoots_std, stdVSCandidates, List.find?_append]
  cases (stdPairCandidates "2022").find? ex <;>
    cases (stdPairCandidates "2019").find? ex <;>
      cases (stdPairCandidates "2017").find? ex <;> rfl

/-- C7: under the standard Windows environment, toolchain discovery returns
exactly the first existing path of the ordered candidate list (versions
2022, 2019, 2017; within a version the 64-bit then the 32-bit root, each
with editions Enterprise, Professional, Community, Preview, BuildTools); a
set-and-existing `vs2022_install` override is returned immediately; when
both 2022 Enterprise and 2019 Community exist the 2022 Enterprise path is
returned; and when no candidate exists and no override is set the result is
null. -/

theorem c7_toolchain_discovery :
    (∀ ex : String → Bool,
      findSupportedVisualStudioVersion (mkProbeWorld stdVSEnv ex) =
        stdVSCandidates.find? ex)
    ∧ findSupportedVisualStudioVersion (mkProbeWorld envOverride exScenarioB) =
        some "D:/VS2022"
    ∧ findSupportedVisualStudioVersion (mkProbeWorld stdVSEnv exScenarioA) =
        some "C:/Program Files/Microsoft Visual Studio/2022/Enterprise"
    ∧ findSupportedVisualStudioVersion (mkProbeWorld stdVSEnv (fun _ => false)) =
        none :=
  ⟨findVS_std, by decide, by decide, by decide⟩

/-- C9: `enableSpectreMode` never modifies the overall error flag: for
every discovered (non-null) toolchain path, whatever the filesystem says
about `vcvarsall.bat` and whatever status the invoked setup process
reports, it returns normally with the error flag unchanged (failures are
only logged). -/

theorem c9_spectre_mode_frame (w : World) (p : String) (e0 : Bool) :
    ∃ logs, enableSpectreMode w (some p) e0 = Except.ok (e0, logs) := by
  unfold enableSpectreMode joinPathChecked
  cases hx : w.pathExists (joinPath p "VC/Auxiliary/Build/vcvarsall.bat") with
  | false => exact ⟨[msgVcvarsMissing], by simp [hx]⟩
  | true =>
    cases hs : w.spawnStatus (joinPath p "VC/Auxiliary/Build/vcvarsall.bat")
        ["-vcvars_spectre_libs=spectre_mode"] with
    | none => exact ⟨[], by simp [hx, hs]⟩
    | some n =>
      cases hn : n != 0 with
      | false => exact ⟨[], by simp [hx, hs, hn]⟩
      | true => exact ⟨[msgVcvarsStatus], by simp [hx, hs, hn]⟩

/-- C1: on a Windows host where toolchain discovery finds nothing, the
error flag is set and header installation never runs, but the run does not
continue through the remaining steps to the final accumulated-error exit:
`enableSpectreMode(null)` throws a `TypeError` from `path.join`, so the
process crashes mid-branch instead of reaching `process.exit(1)`. -/

theorem c1_missing_toolchain_crashes :
    findSupportedVisualStudioVersion worldNoVS = none
    ∧ windowsBranch worldNoVS false = ⟨true, [], some JsError.typeError⟩
    ∧ windowsRunOutcome worldNoVS false = Outcome.crashed JsError.typeError := by
  refine ⟨by decide, ?_, ?_⟩ <;> decide

theorem remoteInstallPhase_eq (w : World) (e0 : Bool) (spec : Option (String × String))
    (versions : List String) (acc : List (String × String))
    (hok : ∀ args, w.execOk nodeGypPath args = true) :
    remoteInstallPhase w e0 spec versions acc =
      ⟨e0, acc ++ specInstalls spec versions, none⟩ := by
  match spec with
  | none => simp [remoteInstallPhase, specInstalls]
  | some (u, t) =>
    simp only [remoteInstallPhase, specInstalls, hok]
    cases h : versions.contains t <;> simp [h]

/-- Common first half of an `installHeaders` run in which the yarn install
and the node-gyp `list` call succeed and both config files are readable. -/

theorem installHeaders_eq_of_ok (w : World) (e0 : Bool) (lc rc : String)
    (hyA : w.spawnHasError "yarn.cmd" ["install"] = false)
    (hyB : w.spawnStatus "yarn.cmd" ["install"] = some 0)
    (hok : ∀ args, w.execOk nodeGypPath args = true)
    (hlc : w.fileContents localRcPath = some lc)
    (hrc : w.fileContents remoteRcPath = some rc) :
    installHeaders w e0 =
      ⟨e0,
        specInstalls (getHeaderInfo lc)
            (gypListVersions (w.execOutput nodeGypPath ["list"])) ++
          specInstalls (getHeaderInfo rc)
            (gypListVersions (w.execOutput nodeGypPath ["list"])),
        none⟩ := by
  simp only [installHeaders, hyA, hyB, hok, hlc, hrc, beq_self_eq_true, Bool.not_true,
    Bool.or_false, Bool.false_or, Bool.not_false, if_false, if_true, Bool.false_eq_true,
    reduceIte]
  cases hl : getHeaderInfo lc with
  | none =>
    rw [remoteInstallPhase_eq w e0 _ _ _ hok]
    simp only [specInstalls, List.nil_append]
  | some pr =>
    obtain ⟨u, t⟩ := pr
    cases hc : (gypListVersions (w.execOutput nodeGypPath ["list"])).contains t with
    | false =>
      simp only [hc, Bool.not_false, if_true, hok, reduceIte]
      rw [remoteInstallPhase_eq w e0 _ _ _ hok]
      simp only [specInstalls, hc, Bool.false_eq_true, if_false, List.singleton_append]
    | true =>
      simp only [hc, Bool.not_true, Bool.false_eq_true, if_false, reduceIte]
      rw [remoteInstallPhase_eq w e0 _ _ _ hok]
      simp only [specInstalls, hc, if_true, List.nil_append]

/-- C8 counterexample: with both specs present and neither target
installed, a failing local install throws and aborts `installHeaders`, so
the remote install invocation never occurs — refuting the claim that
exactly one remote invocation occurs and that neither install is
conditional on the other's outcome. -/

theorem c8_installs_counterexample :
    getHeaderInfo "disturl \"https://remote/dist\"\r\ntarget \"2.0.0\"\r\n" =
        some ("https://remote/dist", "2.0.0")
    ∧ (gypListVersions "").contains "2.0.0" = false
    ∧ installHeaders worldLocalInstallThrows false =
        ⟨false, [("https://local/dist", "1.0.0")],
          some (JsError.execFailed nodeGypPath
            ["install", "--dist-url", "https://local/dist", "1.0.0"])⟩ := by
  refine ⟨by decide, by decide, by decide⟩

/-- C8 (amended): provided no header-manager invocation throws, for each
present spec no install invocation occurs when its target is already in the
installed set, and exactly one invocation with that spec's dist-url and
target occurs when it is not; the two decisions are independent (the result
is the concatenation of the two independently-computed parts).  The
amendment restricts the original claim to runs in which the local install
does not throw: `execFileSync` propagates a failing local install and the
remote install is then skipped (see the counterexample). -/

theorem c8_install_decisions (w : World) (e0 : Bool) (lc rc : String)
    (hyA : w.spawnHasError "yarn.cmd" ["install"] = false)
    (hyB : w.spawnStatus "yarn.cmd" ["install"] = some 0)
    (hok : ∀ args, w.execOk nodeGypPath args = true)
    (hlc : w.fileContents localRcPath = some lc)
    (hrc : w.fileContents remoteRcPath = some rc) :
    installHeaders w e0 =
      ⟨e0,
        specInstalls (getHeaderInfo lc)
            (gypListVersions (w.execOutput nodeGypPath ["list"])) ++
          specInstalls (getHeaderInfo rc)
            (gypListVersions (w.execOutput nodeGypPath ["list"])),
        none⟩ :=
  installHeaders_eq_of_ok w e0 lc rc hyA hyB hok hlc hrc

/-- C8 witness: the amended install-decision theorem instantiated at the
concrete world in which every invocation succeeds. -/

theorem c8_install_decisions_witness :
    installHeaders worldBothSpecs false =
      ⟨false,
        specInstalls
            (getHeaderInfo "disturl \"https://local/dist\"\r\ntarget \"1.0.0\"\r\n")
            (gypListVersions "") ++
          specInstalls
            (getHeaderInfo "disturl \"https://remote/dist\"\r\ntarget \"2.0.0\"\r\n")
            (gypListVersions ""),
        none⟩ :=
  c8_install_decisions worldBothSpecs false _ _ rfl rfl (fun _ => rfl) rfl rfl

/-- C3 counterexample: when the local config file is absent, the header
spec is not "treated as absent": `readFileSync` throws, the exception
propagates out of `installHeaders`, and the run aborts — refuting the
claim that an absent file is not an error of the run. -/

theorem c3_absent_file_counterexample :
    (installHeaders worldAbsentLocalRc false).exn = some (JsError.enoent localRcPath) := by
  decide

/-- C3 (amended): a config file that exists but lacks a required key yields
an absent spec: no install is attempted for it, the other spec is processed
independently, and no error is recorded.  An *absent* file, however, makes
`readFileSync` throw, aborting the run with an exception (the original
claim treated both cases alike). -/

theorem c3_optional_configs :
    (∀ (w : World) (e0 : Bool) (lc rc : String),
      w.spawnHasError "yarn.cmd" ["install"] = false →
      w.spawnStatus "yarn.cmd" ["install"] = some 0 →
      (∀ args, w.execOk nodeGypPath args = true) →
      w.fileContents localRcPath = some lc →
      w.fileContents remoteRcPath = some rc →
      (getHeaderInfo lc = none → getHeaderInfo rc = none →
        installHeaders w e0 = ⟨e0, [], none⟩)
      ∧ (∀ u t, getHeaderInfo lc = none → getHeaderInfo rc = some (u, t) →
          (gypListVersions (w.execOutput nodeGypPath ["list"])).contains t = false →
          installHeaders w e0 = ⟨e0, [(u, t)], none⟩)
      ∧ (∀ u t, getHeaderInfo lc = some (u, t) → getHeaderInfo rc = none →
          (gypListVersions (w.execOutput nodeGypPath ["list"])).contains t = false →
          installHeaders w e0 = ⟨e0, [(u, t)], none⟩))
    ∧ (∀ (w : World) (e0 : Bool),
      w.spawnHasError "yarn.cmd" ["install"] = false →
      w.spawnStatus "yarn.cmd" ["install"] = some 0 →
      (∀ args, w.execOk nodeGypPath args = true) →
      w.fileContents localRcPath = none →
      installHeaders w e0 = ⟨e0, [], some (JsError.enoent localRcPath)⟩) := by
  constructor
  · intro w e0 lc rc hyA hyB hok hlc hrc
    refine ⟨?_, ?_, ?_⟩
    · intro hl hr
      rw [installHeaders_eq_of_ok w e0 lc rc hyA hyB hok hlc hrc, hl, hr]
      rfl
    · intro u t hl hr hct
      rw [installHeaders_eq_of_ok w e0 lc rc hyA hyB hok hlc hrc, hl, hr]
      simp only [specInstalls, hct, Bool.false_eq_true, if_false, List.nil_append]
    · intro u t hl hr hct
      rw [installHeaders_eq_of_ok w e0 lc rc hyA hyB hok hlc hrc, hl, hr]
      simp only [specInstalls, hct, Bool.false_eq_true, if_false, List.append_nil]
  · intro w e0 hyA hyB hok hlc
    simp only [installHeaders, hyA, hyB, hok, hlc, beq_self_eq_true, Bool.not_true,
      Bool.or_false, Bool.false_or, Bool.not_false, Bool.false_eq_true, if_false,
      if_true, reduceIte]

/-- C3 witness: the amended theorem applied at the concrete world with an
absent local config file. -/

theorem c3_optional_configs_witness :
    installHeaders worldAbsentLocalRc false = ⟨false, [], some (JsError.enoent localRcPath)⟩ :=
  c3_optional_configs.2 worldAbsentLocalRc false rfl rfl (fun _ => rfl) rfl

theorem splitRN_ne_nil (l : List Char) : splitRN l ≠ [] := by
  rw [splitRN.eq_def]
  split
  · simp
  · simp
  · simp
  · split <;> simp

theorem splitRN_cons_ne (c : Char) (rest : List Char) (hc : c ≠ '\r') :
    splitRN (c :: rest) =
      match splitRN rest with
      | [] => [[c]]
      | l :: ls => (c :: l) :: ls := by
  rw [splitRN.eq_def]
  simp [hc]

theorem splitRN_append_rn (xs ys : List Char) (hxs : ∀ c ∈ xs, c ≠ '\r') :
    splitRN (xs ++ '\r' :: '\n' :: ys) = xs :: splitRN ys := by
  induction xs with
  | nil => rfl
  | cons c xs ih =>
    have hc : c ≠ '\r' := hxs c (List.mem_cons_self c xs)
    have hxs' : ∀ d ∈ xs, d ≠ '\r' := fun d hd => hxs d (List.mem_cons_of_mem c hd)
    rw [List.cons_append, splitRN_cons_ne c _ hc, ih hxs']

theorem splitRN_cr (rest : List Char) (hne : ∀ r2 : List Char, rest ≠ '\n' :: r2) :
    splitRN ('\r' :: rest) = [] :: splitRN rest := by
  match rest with
  | [] => rfl
  | c :: r2 =>
    have hc : c ≠ '\n' := by
      intro h
      exact hne r2 (by rw [h])
    rw [splitRN.eq_def]
    simp [hc]

theorem splitRN_pieces (l : List Char) :
    ∃ h rest0, splitRN l = h :: rest0 ∧ h <+: l ∧ ∀ p ∈ rest0, p <:+: l := by
  induction l using splitRN.induct with
  | case1 => exact ⟨[], [], rfl, List.prefix_refl _, by simp⟩
  | case2 rest ih =>
    obtain ⟨h, r0, heq, hpre, hinf⟩ := ih
    refine ⟨[], splitRN rest, rfl, List.nil_prefix, ?_⟩
    intro p hp
    rw [heq] at hp
    rcases List.mem_cons.mp hp with rfl | hp'
    · exact List.infix_cons (List.infix_cons hpre.isInfix)
    · exact List.infix_cons (List.infix_cons (hinf p hp'))
  | case3 rest hne ih =>
    obtain ⟨h, r0, heq, hpre, hinf⟩ := ih
    have hr : ∀ r2 : List Char, rest = '\n' :: r2 → False := hne
    refine ⟨[], splitRN rest, splitRN_cr rest (fun r2 hr2 => hr r2 hr2), List.nil_prefix, ?_⟩
    intro p hp
    rw [heq] at hp
    rcases List.mem_cons.mp hp with rfl | hp'
    · exact List.infix_cons hpre.isInfix
    · exact List.infix_cons (hinf p hp')
  | case4 c rest h1 h2 hnil ih =>
    exact absurd hnil (splitRN_ne_nil rest)
  | case5 c rest h1 h2 l0 ls heq ih =>
    obtain ⟨h, r0, heq', hpre, hinf⟩ := ih
    rw [heq'] at heq
    injection heq with heq1 heq2
    subst heq1; subst heq2
    have hc : c ≠ '\r' := h2
    refine ⟨c :: h, r0, ?_, ?_, ?_⟩
    · rw [splitRN_cons_ne c rest hc, heq']
    · obtain ⟨t, ht⟩ := hpre
      exact ⟨t, by rw [List.cons_append, ht]⟩
    · intro p hp
      exact List.infix_cons (hinf p hp)

theorem splitRN_mem_piece (l p : List Char) (hp : p ∈ splitRN l) : p <:+: l := by
  obtain ⟨h, r0, heq, hpre, hinf⟩ := splitRN_pieces l
  rw [heq] at hp
  rcases List.mem_cons.mp hp with rfl | hp'
  · exact hpre.isInfix
  · exact hinf p hp'

theorem findCloseAux_ws (w : List Char) (hw : w.all isJsWs = true) :
    findCloseAux w = none := by
  induction w with
  | nil => rfl
  | cons c r ih =>
    rw [List.all_cons, Bool.and_eq_true] at hw
    obtain ⟨hc, hr⟩ := hw
    have hcq : (c == '"') = false := by
      cases hq : c == '"' with
      | false => rfl
      | true =>
        rw [beq_iff_eq] at hq
        subst hq
        simp [isJsWs] at hc
    simp only [findCloseAux, ih hr, hcq, Bool.false_and, Bool.false_eq_true, if_false]

theorem findCloseAux_append (u w : List Char) (hu : u.all goodCapChar = true)
    (hw : w.all isJsWs = true) : findCloseAux (u ++ '"' :: w) = some u := by
  induction u with
  | nil =>
    simp only [List.nil_append, findCloseAux, findCloseAux_ws w hw, beq_self_eq_true,
      Bool.true_and, hw, if_true]
  | cons c u ih =>
    rw [List.all_cons, Bool.and_eq_true] at hu
    obtain ⟨hc, hu'⟩ := hu
    have hdot : isDotChar c = true := by
      simp only [goodCapChar, Bool.and_eq_true, Bool.not_eq_true'] at hc
      simp [isDotChar, hc.1.2, hc.2]
    simp only [List.cons_append, findCloseAux, List.append_eq, ih hu', hdot, if_true]

theorem findCloseAux_quote_mem (r cap : List Char) (h : findCloseAux r = some cap) :
    '"' ∈ r := by
  induction r generalizing cap with
  | nil => cases h
  | cons c rest ih =>
    simp only [findCloseAux] at h
    cases hr : findCloseAux rest with
    | some cap' =>
      rw [hr] at h
      exact List.mem_cons_of_mem c (ih cap' hr)
    | none =>
      rw [hr] at h
      by_cases hc : (c == '"') = true
      · rw [beq_iff_eq] at hc
        subst hc
        exact List.mem_cons_self _ _
      · rw [Bool.not_eq_true] at hc
        rw [hc] at h
        simp at h

theorem matchAfterKey_quotes (b cap : List Char) (h : matchAfterKey b = some cap) :
    2 ≤ b.count '"' := by
  unfold matchAfterKey at h
  split at h
  case _ rest heq =>
    have hmem : '"' ∈ rest := findCloseAux_quote_mem rest cap h
    have h1 : 1 ≤ rest.count '"' := List.count_pos_iff.mpr hmem
    have h2 : 2 ≤ ('"' :: rest).count '"' := by
      rw [List.count_cons_self]
      omega
    have hsub : ('"' :: rest).count '"' ≤ b.count '"' := by
      have hsuf := (List.dropWhile_suffix (l := b) isJsWs).sublist
      rw [heq] at hsuf
      exact hsuf.count_le '"'
    omega
  case _ => exact absurd h (by simp)

theorem scanKey_sound (key : List Char) : ∀ (l cap : List Char),
    scanKey key l = some cap →
    ∃ a b, l = a ++ key ++ b ∧ matchAfterKey b = some cap := by
  intro l
  induction l with
  | nil => intro cap h; cases h
  | cons c rest ih =>
    intro cap h
    simp only [scanKey] at h
    by_cases hp : key.isPrefixOf (c :: rest) = true
    · rw [hp] at h
      simp only [if_true] at h
      cases hm : matchAfterKey ((c :: rest).drop key.length) with
      | some cap' =>
        rw [hm] at h
        injection h with h'
        subst h'
        obtain ⟨b, hb⟩ := List.isPrefixOf_iff_prefix.mp hp
        refine ⟨[], b, by rw [List.nil_append, hb], ?_⟩
        rw [← hb, List.drop_left] at hm
        exact hm
      | none =>
        rw [hm] at h
        obtain ⟨a, b, heq, hmb⟩ := ih cap h
        exact ⟨c :: a, b, by rw [heq]; rfl, hmb⟩
    · rw [Bool.not_eq_true] at hp
      rw [hp] at h
      simp only [Bool.false_eq_true, if_false] at h
      obtain ⟨a, b, heq, hmb⟩ := ih cap h
      exact ⟨c :: a, b, by rw [heq]; rfl, hmb⟩

theorem scanKey_low_quotes (key l : List Char) (hl : l.count '"' < 2) :
    scanKey key l = none := by
  cases hs : scanKey key l with
  | none => rfl
  | some cap =>
    exfalso
    obtain ⟨a, b, heq, hm⟩ := scanKey_sound key l cap hs
    have hb := matchAfterKey_quotes b cap hm
    rw [heq, List.append_assoc, List.count_append, List.count_append] at hl
    omega

theorem scanKey_head_hit (key rest cap : List Char)
    (h : matchAfterKey rest = some cap) (hk : key ≠ []) :
    scanKey key (key ++ rest) = some cap := by
  cases key with
  | nil => exact absurd rfl hk
  | cons k ks =>
    rw [show ((k :: ks) ++ rest : List Char) = k :: (ks ++ rest) from rfl]
    simp only [scanKey]
    have hp : (k :: ks).isPrefixOf (k :: (ks ++ rest)) = true :=
      List.isPrefixOf_iff_prefix.mpr ⟨rest, rfl⟩
    rw [hp]
    simp only [if_true]
    rw [show (k :: (ks ++ rest) : List Char) = (k :: ks) ++ rest from rfl,
      List.drop_left, h]

theorem goodCapChar_spec (u : List Char) (hu : u.all goodCapChar = true) :
    ∀ c ∈ u, c ≠ '"' ∧ c ≠ '\n' ∧ c ≠ '\r' := by
  intro c hc
  have hg := List.all_eq_true.mp hu c hc
  simp only [goodCapChar, Bool.and_eq_true, Bool.not_eq_true'] at hg
  exact ⟨beq_eq_false_iff_ne.mp hg.1.1, beq_eq_false_iff_ne.mp hg.1.2,
    beq_eq_false_iff_ne.mp hg.2⟩

theorem goodPad_imp_ws (w : List Char) (hw : w.all goodPadChar = true) :
    w.all isJsWs = true := by
  rw [List.all_eq_true] at hw ⊢
  intro c hc
  have := hw c hc
  simp only [goodPadChar, Bool.or_eq_true, beq_iff_eq] at this
  rcases this with rfl | rfl <;> rfl

theorem goodPad_no_cr (w : List Char) (hw : w.all goodPadChar = true) :
    ∀ c ∈ w, c ≠ '\r' := by
  intro c hc
  have := List.all_eq_true.mp hw c hc
  simp only [goodPadChar, Bool.or_eq_true, beq_iff_eq] at this
  rcases this with rfl | rfl <;> decide

theorem count_quote_zero_of_good (u : List Char) (hu : u.all goodCapChar = true) :
    u.count '"' = 0 :=
  List.count_eq_zero.mpr (fun hmem => (goodCapChar_spec u hu '"' hmem).1 rfl)

theorem count_quote_zero_of_ws (w : List Char) (hw : w.all isJsWs = true) :
    w.count '"' = 0 :=
  List.count_eq_zero.mpr (fun hmem => by
    have := List.all_eq_true.mp hw '"' hmem
    simp [isJsWs] at this)

theorem count_val_quotes (u w : List Char) (hu : u.all goodCapChar = true)
    (hw : w.all isJsWs = true) : (u ++ '"' :: w).count '"' = 1 := by
  rw [List.count_append, count_quote_zero_of_good u hu, List.count_cons_self,
    count_quote_zero_of_ws w hw]

theorem scanKey_disturl_line (u w : List Char) (hu : u.all goodCapChar = true)
    (hw : w.all isJsWs = true) :
    scanKey "disturl".data
      ('d' :: 'i' :: 's' :: 't' :: 'u' :: 'r' :: 'l' :: ' ' :: '"' :: (u ++ '"' :: w)) =
      some u := by
  have h1 : matchAfterKey (' ' :: '"' :: (u ++ '"' :: w)) = some u := by
    rw [show matchAfterKey (' ' :: '"' :: (u ++ '"' :: w)) =
      findCloseAux (u ++ '"' :: w) from rfl]
    exact findCloseAux_append u w hu hw
  exact scanKey_head_hit "disturl".data (' ' :: '"' :: (u ++ '"' :: w)) u h1 (by decide)

theorem scanKey_target_line (t w : List Char) (ht : t.all goodCapChar = true)
    (hw : w.all isJsWs = true) :
    scanKey "target".data
      ('t' :: 'a' :: 'r' :: 'g' :: 'e' :: 't' :: ' ' :: '"' :: (t ++ '"' :: w)) =
      some t := by
  have h1 : matchAfterKey (' ' :: '"' :: (t ++ '"' :: w)) = some t := by
    rw [show matchAfterKey (' ' :: '"' :: (t ++ '"' :: w)) =
      findCloseAux (t ++ '"' :: w) from rfl]
    exact findCloseAux_append t w ht hw
  exact scanKey_head_hit "target".data (' ' :: '"' :: (t ++ '"' :: w)) t h1 (by decide)

theorem scanKey_target_on_disturl_line (u w : List Char) (hu : u.all goodCapChar = true)
    (hw : w.all isJsWs = true) :
    scanKey "target".data
      ('d' :: 'i' :: 's' :: 't' :: 'u' :: 'r' :: 'l' :: ' ' :: '"' :: (u ++ '"' :: w)) =
      none := by
  rw [show scanKey "target".data
      ('d' :: 'i' :: 's' :: 't' :: 'u' :: 'r' :: 'l' :: ' ' :: '"' :: (u ++ '"' :: w)) =
      scanKey "target".data (u ++ '"' :: w) from rfl]
  exact scanKey_low_quotes _ _ (by rw [count_val_quotes u w hu hw]; omega)

theorem scanKey_disturl_on_target_line (t w : List Char) (ht : t.all goodCapChar = true)
    (hw : w.all isJsWs = true) :
    scanKey "disturl".data
      ('t' :: 'a' :: 'r' :: 'g' :: 'e' :: 't' :: ' ' :: '"' :: (t ++ '"' :: w)) =
      none := by
  rw [show scanKey "disturl".data
      ('t' :: 'a' :: 'r' :: 'g' :: 'e' :: 't' :: ' ' :: '"' :: (t ++ '"' :: w)) =
      scanKey "disturl".data (t ++ '"' :: w) from rfl]
  exact scanKey_low_quotes _ _ (by rw [count_val_quotes t w ht hw]; omega)

theorem foldl_fst_keep (lines : List (List Char)) :
    ∀ acc : Option (List Char) × Option (List Char),
    (∀ l ∈ lines, scanKey "disturl".data l = none) →
    (lines.foldl headerScanStep acc).1 = acc.1 := by
  induction lines with
  | nil => intro acc h; rfl
  | cons l ls ih =>
    intro acc h
    rw [List.foldl_cons, ih _ (fun x hx => h x (List.mem_cons_of_mem _ hx))]
    unfold headerScanStep
    rw [h l (List.mem_cons_self _ _)]

theorem foldl_snd_keep (lines : List (List Char)) :
    ∀ acc : Option (List Char) × Option (List Char),
    (∀ l ∈ lines, scanKey "target".data l = none) →
    (lines.foldl headerScanStep acc).2 = acc.2 := by
  induction lines with
  | nil => intro acc h; rfl
  | cons l ls ih =>
    intro acc h
    rw [List.foldl_cons, ih _ (fun x hx => h x (List.mem_cons_of_mem _ hx))]
    unfold headerScanStep
    rw [h l (List.mem_cons_self _ _)]

theorem getHeaderInfo_none_of_no_disturl (content : String)
    (h : ¬ ("disturl".data <:+: content.data)) : getHeaderInfo content = none := by
  have hall : ∀ l ∈ splitRN content.data, scanKey "disturl".data l = none := by
    intro l hl
    cases hs : scanKey "disturl".data l with
    | none => rfl
    | some cap =>
      exfalso
      obtain ⟨a, b, heq, _⟩ := scanKey_sound _ _ _ hs
      exact h (List.IsInfix.trans ⟨a, b, heq.symm⟩ (splitRN_mem_piece _ _ hl))
  unfold getHeaderInfo
  have h1 := foldl_fst_keep (splitRN content.data) (none, none) hall
  cases hf : (splitRN content.data).foldl headerScanStep (none, none) with
  | mk d t =>
    rw [hf] at h1
    simp only at h1
    subst h1
    cases t <;> rfl

theorem getHeaderInfo_none_of_no_target (content : String)
    (h : ¬ ("target".data <:+: content.data)) : getHeaderInfo content = none := by
  have hall : ∀ l ∈ splitRN content.data, scanKey "target".data l = none := by
    intro l hl
    cases hs : scanKey "target".data l with
    | none => rfl
    | some cap =>
      exfalso
      obtain ⟨a, b, heq, _⟩ := scanKey_sound _ _ _ hs
      exact h (List.IsInfix.trans ⟨a, b, heq.symm⟩ (splitRN_mem_piece _ _ hl))
  unfold getHeaderInfo
  have h1 := foldl_snd_keep (splitRN content.data) (none, none) hall
  cases hf : (splitRN content.data).foldl headerScanStep (none, none) with
  | mk d t =>
    rw [hf] at h1
    simp only at h1
    subst h1
    cases d <;> rfl

theorem headerFold_two_lines (content : String) (l1 l2 : List Char)
    (hdata : content.data = l1 ++ '\r' :: '\n' :: (l2 ++ '\r' :: '\n' :: []))
    (h1 : ∀ c ∈ l1, c ≠ '\r') (h2 : ∀ c ∈ l2, c ≠ '\r') :
    (splitRN content.data).foldl headerScanStep (none, none) =
      headerScanStep (headerScanStep (none, none) l1) l2 := by
  rw [hdata, splitRN_append_rn l1 _ h1, splitRN_append_rn l2 _ h2]
  rfl

/-- C2 (amended): `getHeaderInfo` parses files whose lines are separated by
CRLF (the split regex is `/\r\n?/`, so CRLF or a lone CR separates lines —
a lone LF does *not*): for all values free of quotes and line terminators
and any blank/tab padding, a CRLF file with a `disturl` line and a `target`
line in either order yields the pair, and a file in which either key string
does not occur at all yields undefined. -/

theorem c2_header_info_parse :
    (∀ u t w1 w2 : String,
      u.data.all goodCapChar = true → t.data.all goodCapChar = true →
      w1.data.all goodPadChar = true → w2.data.all goodPadChar = true →
      getHeaderInfo ("disturl \"" ++ u ++ "\"" ++ w1 ++ "\r\n" ++
          "target \"" ++ t ++ "\"" ++ w2 ++ "\r\n") = some (u, t)
      ∧ getHeaderInfo ("target \"" ++ t ++ "\"" ++ w2 ++ "\r\n" ++
          "disturl \"" ++ u ++ "\"" ++ w1 ++ "\r\n") = some (u, t))
    ∧ (∀ content : String, ¬ ("disturl".data <:+: content.data) →
        getHeaderInfo content = none)
    ∧ (∀ content : String, ¬ ("target".data <:+: content.data) →
        getHeaderInfo content = none) := by
  refine ⟨?_, getHeaderInfo_none_of_no_disturl, getHeaderInfo_none_of_no_target⟩
  intro u t w1 w2 hu ht hw1 hw2
  have hwsa : w1.data.all isJsWs = true := goodPad_imp_ws _ hw1
  have hwsb : w2.data.all isJsWs = true := goodPad_imp_ws _ hw2
  have h1cr : ∀ c ∈ ('d' :: 'i' :: 's' :: 't' :: 'u' :: 'r' :: 'l' :: ' ' :: '"' ::
      (u.data ++ '"' :: w1.data)), c ≠ '\r' := by
    intro c hc
    simp only [List.mem_cons, List.mem_append] at hc
    rcases hc with rfl|rfl|rfl|rfl|rfl|rfl|rfl|rfl|rfl|hcu|rfl|hcw
    all_goals first
      | decide
      | exact (goodCapChar_spec u.data hu c hcu).2.2
      | exact goodPad_no_cr w1.data hw1 c hcw
  have h2cr : ∀ c ∈ ('t' :: 'a' :: 'r' :: 'g' :: 'e' :: 't' :: ' ' :: '"' ::
      (t.data ++ '"' :: w2.data)), c ≠ '\r' := by
    intro c hc
    simp only [List.mem_cons, List.mem_append] at hc
    rcases hc with rfl|rfl|rfl|rfl|rfl|rfl|rfl|rfl|hct|rfl|hcw
    all_goals first
      | decide
      | exact (goodCapChar_spec t.data ht c hct).2.2
      | exact goodPad_no_cr w2.data hw2 c hcw
  have hs1a : headerScanStep (none, none)
      ('d' :: 'i' :: 's' :: 't' :: 'u' :: 'r' :: 'l' :: ' ' :: '"' ::
        (u.data ++ '"' :: w1.data)) = (some u.data, none) := by
    unfold headerScanStep
    rw [scanKey_disturl_line u.data w1.data hu hwsa,
      scanKey_target_on_disturl_line u.data w1.data hu hwsa]
  have hs2a : headerScanStep (some u.data, none)
      ('t' :: 'a' :: 'r' :: 'g' :: 'e' :: 't' :: ' ' :: '"' ::
        (t.data ++ '"' :: w2.data)) = (some u.data, some t.data) := by
    unfold headerScanStep
    rw [scanKey_disturl_on_target_line t.data w2.data ht hwsb,
      scanKey_target_line t.data w2.data ht hwsb]
  have hs1b : headerScanStep (none, none)
      ('t' :: 'a' :: 'r' :: 'g' :: 'e' :: 't' :: ' ' :: '"' ::
        (t.data ++ '"' :: w2.data)) = (none, some t.data) := by
    unfold headerScanStep
    rw [scanKey_disturl_on_target_line t.data w2.data ht hwsb,
      scanKey_target_line t.data w2.data ht hwsb]
  have hs2b : headerScanStep (none, some t.data)
      ('d' :: 'i' :: 's' :: 't' :: 'u' :: 'r' :: 'l' :: ' ' :: '"' ::
        (u.data ++ '"' :: w1.data)) = (some u.data, some t.data) := by
    unfold headerScanStep
    rw [scanKey_disturl_line u.data w1.data hu hwsa,
      scanKey_target_on_disturl_line u.data w1.data hu hwsa]
  constructor
  · have hdata : ("disturl \"" ++ u ++ "\"" ++ w1 ++ "\r\n" ++
        "target \"" ++ t ++ "\"" ++ w2 ++ "\r\n").data =
        ('d' :: 'i' :: 's' :: 't' :: 'u' :: 'r' :: 'l' :: ' ' :: '"' ::
          (u.data ++ '"' :: w1.data)) ++ '\r' :: '\n' ::
          (('t' :: 'a' :: 'r' :: 'g' :: 'e' :: 't' :: ' ' :: '"' ::
            (t.data ++ '"' :: w2.data)) ++ '\r' :: '\n' :: []) := by
      simp only [String.data_append, List.append_assoc, List.cons_append,
        List.singleton_append, List.nil_append]
    unfold getHeaderInfo
    rw [headerFold_two_lines _ _ _ hdata h1cr h2cr, hs1a, hs2a]
  · have hdata : ("target \"" ++ t ++ "\"" ++ w2 ++ "\r\n" ++
        "disturl \"" ++ u ++ "\"" ++ w1 ++ "\r\n").data =
        ('t' :: 'a' :: 'r' :: 'g' :: 'e' :: 't' :: ' ' :: '"' ::
          (t.data ++ '"' :: w2.data)) ++ '\r' :: '\n' ::
          (('d' :: 'i' :: 's' :: 't' :: 'u' :: 'r' :: 'l' :: ' ' :: '"' ::
            (u.data ++ '"' :: w1.data)) ++ '\r' :: '\n' :: []) := by
      simp only [String.data_append, List.append_assoc, List.cons_append,
        List.singleton_append, List.nil_append]
    unfold getHeaderInfo
    rw [headerFold_two_lines _ _ _ hdata h2cr h1cr, hs1b, hs2b]

/-- C2 counterexample: the spec's own example file written with LF line
endings.  Each LF-separated line individually matches its key pattern (the
first two conjuncts), yet `getHeaderInfo` returns undefined, because
`split(/\r\n?/g)` does not treat a lone LF as a line separator: the whole
file stays one line, on which the `disturl` regex cannot reach `$`. -/

theorem c2_lf_line_endings_counterexample :
    scanKey "disturl".data "disturl \"https://example/dist\"".data =
        some "https://example/dist".data
    ∧ scanKey "target".data "target \"12.3.4\"".data = some "12.3.4".data
    ∧ getHeaderInfo "disturl \"https://example/dist\"\ntarget \"12.3.4\"\n" = none := by
  refine ⟨by decide, by decide, by decide⟩

/-- C2 witness: the amended parsing theorem applied at the spec's example
values (CRLF separators, no padding) and at a file containing neither
key. -/

theorem c2_header_info_parse_witness :
    getHeaderInfo "disturl \"https://example/dist\"\r\ntarget \"12.3.4\"\r\n" =
        some ("https://example/dist", "12.3.4")
    ∧ getHeaderInfo "runtime \"electron\"" = none := by
  constructor
  · have h := (c2_header_info_parse.1 "https://example/dist" "12.3.4" "" ""
      (by decide) (by decide) (by decide) (by decide)).1
    exact h
  · exact c2_header_info_parse.2.1 "runtime \"electron\"" (by decide)
